import Mathlib

/-!
Verification development for the `droid` multi-agent orchestrator.

Each Go function relevant to the checked claims is shallowly embedded as an
executable Lean definition: Go strings become `List Char` (byte strings for
the HMAC path become `List Nat`), machine integers become `Nat`/`Int` with
explicit wraparound where it matters, and fallible code returns `Except` or
`Option`.  Network and filesystem effects are passed in as explicit oracle
parameters so the control flow of the Go code can be reproduced faithfully.
-/

set_option maxRecDepth 10000

namespace Droid

/-! ## Generic string helpers (Go `strings` package semantics) -/

/-- Character list of a string literal, for readable concrete inputs. -/
def str (s : String) : List Char := s.data

/-- Go `strings.HasPrefix` on char lists. -/
def hasPre (p s : List Char) : Bool := p.isPrefixOf s

/-- Go `strings.HasSuffix` on char lists. -/
def hasSuf (p s : List Char) : Bool := p.reverse.isPrefixOf s.reverse

/-- Go `strings.TrimPrefix`: drop `p` from the front when present. -/
def trimPre (s p : List Char) : List Char :=
  if hasPre p s then s.drop p.length else s

/-- Go `strings.TrimSuffix`: drop `p` from the end when present. -/
def trimSuf (s p : List Char) : List Char :=
  if hasSuf p s then s.take (s.length - p.length) else s

/-- Go `strings.Contains` on char lists. -/
def containsSub (s needle : List Char) : Bool :=
  s.tails.any (fun t => needle.isPrefixOf t)

/-- Go `strings.Split` on a single-character separator. -/
def splitOnChar (sep : Char) : List Char → List (List Char)
  | [] => [[]]
  | c :: rest =>
    let r := splitOnChar sep rest
    if c = sep then [] :: r
    else
      match r with
      | [] => [[c]]
      | l :: ls => (c :: l) :: ls

/-- Splitting a body on newlines, as `strings.Split(body, "\n")` does. -/
def splitNl (s : List Char) : List (List Char) := splitOnChar '\n' s

/-- Go whitespace test for `strings.TrimSpace` (the ASCII cases). -/
def isSpaceChar (c : Char) : Bool :=
  c = ' ' ∨ c = '\t' ∨ c = '\n' ∨ c = '\r'

/-- Go `strings.TrimSpace` (ASCII whitespace). -/
def trimSpace (s : List Char) : List Char :=
  (s.dropWhile isSpaceChar).reverse.dropWhile isSpaceChar |>.reverse

/-- Go `strings.TrimLeft(s, cutset)` for a one-character cutset. -/
def trimLeftChar (c : Char) (s : List Char) : List Char :=
  s.dropWhile (· = c)

/-- Go `strings.TrimRight(s, cutset)` for a one-character cutset. -/
def trimRightChar (c : Char) (s : List Char) : List Char :=
  (s.reverse.dropWhile (· = c)).reverse

/-- Go `strings.Trim(s, cutset)` for a one-character cutset. -/
def trimChar (c : Char) (s : List Char) : List Char :=
  trimRightChar c (trimLeftChar c s)

/-- Decimal digits of a natural number, most significant first. -/
def natDigits (n : Nat) : List Char :=
  (Nat.toDigits 10 n)

/-- Render a natural number the way `fmt.Sprintf("%d", n)` does. -/
def showNat (n : Nat) : List Char := natDigits n

/-! ## Working-copy driver (`internals/git`, file with `BranchName`,
`injectToken`, `ListFiles`, `RunInDir`) -/

/-- The per-character replacement performed by
`strings.NewReplacer(" ", "-", "/", "-", "\\", "-", ":", "", ".", "")`:
spaces, slashes and backslashes become `-`; colons and dots are dropped;
everything else passes through. -/
def slugReplace (c : Char) : Option Char :=
  if c = ' ' ∨ c = '/' ∨ c = '\\' then some '-'
  else if c = ':' ∨ c = '.' then none
  else some c

/-- `strings.ToLower` per character (the ASCII slice of Go's Unicode
lowercasing, which is all the development reasons about). -/
def toLowerGo (c : Char) : Char :=
  if 65 ≤ c.toNat ∧ c.toNat ≤ 90 then Char.ofNat (c.toNat + 32) else c

/-- The slug computed inside `BranchName`: lowercase the title, apply the
replacer, truncate to 50, trim `-` from both ends. -/
def branchSlug (title : List Char) : List Char :=
  let slug := title.map toLowerGo
  let slug := slug.filterMap slugReplace
  let slug := if slug.length > 50 then slug.take 50 else slug
  trimChar '-' slug

/-- `BranchName(issueNumber, title)` from the working-copy driver. -/
def branchName (issueNumber : Nat) (title : List Char) : List Char :=
  str "agent/issue-" ++ showNat issueNumber ++ ['-'] ++ branchSlug title

/-- `injectToken(repoURL, token)`: empty token passes the URL through;
a nonempty token requires an HTTPS URL and splices the credential in. -/
def injectToken (repoURL token : List Char) : Except (List Char) (List Char) :=
  if token = [] then .ok repoURL
  else if hasPre (str "https://") repoURL then
    .ok (str "https://x-token:" ++ token ++ ['@'] ++ repoURL.drop (str "https://").length)
  else
    .error (str "token injection only supported for HTTPS URLs, got: " ++ repoURL)

/-- The truncation step of `Repo.ListFiles`, applied to the prefix-stripped
lines produced by `find`: keep the first 200 lines and, when there were more,
append one summary line.  The count printed is `len(lines)-maxLines` computed
AFTER the reslice `lines = lines[:maxLines]`, hence always `0`. -/
def listFilesRender (lines : List (List Char)) : List (List Char) :=
  let maxLines := 200
  if lines.length > maxLines then
    let lines := lines.take maxLines
    lines ++ [str "... (" ++ showNat (lines.length - maxLines) ++ str " more files)"]
  else lines

/-- The truncation step of `Repo.RunInDir`: output beyond 8000 bytes is cut
and a `... (truncated, N bytes total)` tail is appended. -/
def runInDirRender (out : List Char) : List Char :=
  let maxBytes := 8000
  if out.length > maxBytes then
    out.take maxBytes ++ str "\n... (truncated, " ++ showNat out.length ++ str " bytes total)"
  else out

/-! ## Repo-URL parsing (`internals/git`, `ParseRepoURL` and friends) -/

inductive Platform where
  | github
  | gitlab
deriving DecidableEq, Repr

structure RepoInfo where
  platform : Platform
  host : List Char
  owner : List Char
  repo : List Char
  rawURL : List Char
deriving DecidableEq, Repr

/-- `normaliseSSH`: `git@host:path` becomes `https://host/path` (the first
colon only is replaced). -/
def normaliseSSH (s : List Char) : List Char :=
  let s := trimPre s (str "git@")
  let s := replaceFirstColon s
  str "https://" ++ s
where
  replaceFirstColon : List Char → List Char
    | [] => []
    | c :: rest => if c = ':' then '/' :: rest else c :: replaceFirstColon rest

/-- The slice of `net/url.Parse` the repo parser relies on, for URLs of the
shape `https://host[:port]/path`: `u.Hostname()` is the authority up to any
`:port`, `u.Path` is the remainder starting at the first `/`. -/
def parseHTTPSURL (s : List Char) : Option (List Char × List Char) :=
  if hasPre (str "https://") s then
    let rest := s.drop (str "https://").length
    let hostport := rest.takeWhile (· ≠ '/')
    let path := rest.drop hostport.length
    some (hostport.takeWhile (· ≠ ':'), path)
  else none

/-- `detectPlatform(host)`: `github.com` or `*.github.com` is GitHub;
`gitlab.com` or any host containing `gitlab` is GitLab. -/
def detectPlatform (host : List Char) : Except (List Char) Platform :=
  if host = str "github.com" ∨ hasSuf (str ".github.com") host then .ok .github
  else if host = str "gitlab.com" ∨ containsSub host (str "gitlab") then .ok .gitlab
  else .error (str "cannot determine platform from host")

/-- `ParseRepoURL`. -/
def parseRepoURL (rawURL : List Char) : Except (List Char) RepoInfo :=
  let rawURL := trimSpace rawURL
  let rawURL := if hasPre (str "git@") rawURL then normaliseSSH rawURL else rawURL
  match parseHTTPSURL rawURL with
  | none => .error (str "invalid URL")
  | some (hostRaw, upath) =>
    let host := hostRaw.map Char.toLower
    match detectPlatform host with
    | .error e => .error e
    | .ok platform =>
      let path := trimPre upath (str "/")
      let path := trimSuf path (str ".git")
      let parts := splitOnChar '/' path
      match platform with
      | .github =>
        if parts.length < 2 ∨ parts.headI = [] ∨ parts.getD 1 [] = [] then
          .error (str "github URL must have owner and repo")
        else
          .ok ⟨.github, host, parts.headI, parts.getD 1 [], rawURL⟩
      | .gitlab =>
        if parts.length < 2 ∨ parts.getLastD [] = [] then
          .error (str "gitlab URL must have at least namespace and repo")
        else
          .ok ⟨.gitlab, host, List.intercalate ['/'] (parts.dropLast),
               parts.getLastD [], rawURL⟩

/-! ## PR body construction and linked-issue recovery
(`executor/worker.go` `buildPRBody`, GitHub provider `extractIssueURL`,
reviewer `parseIssueNumber`) -/

/-- Value of a digit run, `0` when empty — the observable effect of
`fmt.Sscanf(s, "%d", &n)` ignoring its error as `parseIssueNumber` does. -/
def digitsVal (s : List Char) : Nat :=
  s.foldl (fun a c => a * 10 + (c.toNat - 48)) 0

/-- The largest int64, the bit size `fmt` scans `%d` into for a Go `int`. -/
def int64Max : Nat := 9223372036854775807

/-- `fmt.Sscanf(s, "%d", &n)` with the error discarded: skip leading
whitespace, take an optional sign and the maximal digit run, and convert as
`strconv.ParseInt` with bit size 64 does; a missing digit run or a value
outside int64 makes `Sscanf` error out before assigning, so `n` stays `0`. -/
def scanDec (s : List Char) : Int :=
  match s.dropWhile isSpaceChar with
  | [] => 0
  | c :: rest =>
    if c = '-' then
      let v := digitsVal (rest.takeWhile Char.isDigit)
      if v ≤ int64Max + 1 then -(v : Int) else 0
    else if c = '+' then
      let v := digitsVal (rest.takeWhile Char.isDigit)
      if v ≤ int64Max then (v : Int) else 0
    else
      let v := digitsVal ((c :: rest).takeWhile Char.isDigit)
      if v ≤ int64Max then (v : Int) else 0

/-- `parseIssueNumber(url)`: trim trailing `/`, split on `/`, scan the last
segment as a decimal integer. -/
def parseIssueNumber (url : List Char) : Int :=
  let parts := splitOnChar '/' (trimRightChar '/' url)
  match parts.getLast? with
  | none => 0
  | some last => scanDec last

/-! ## Planner issue bodies (`planner/tools.go` `buildIssueBody`) -/

/-- `buildIssueBody(description, ac)`: the Markdown issue template with one
checklist line per acceptance criterion and the planner footer. -/
def buildIssueBody (description : List Char) (ac : List (List Char)) : List Char :=
  str "## Description\n\n" ++ description ++ str "\n\n## Acceptance Criteria\n"
    ++ (ac.map (fun c => str "- [ ] " ++ c ++ ['\n'])).flatten
    ++ str "\n---\n*Created by the Planner Agent*"

/-! ## LLM client retry loop (`internals/llm`, `Client.CompleteWithTools`) -/

/-- Outcome of one `client.Messages.New` call: success, an API error with an
HTTP status (`*anthropic.Error`), or an error `errors.As` cannot convert. -/
inductive ApiOutcome where
  | ok
  | apiErr (status : Nat)
  | otherErr
deriving DecidableEq, Repr

/-- `isRetryable`: only API errors with status 429, 500, 502, 503, 504 or 529
are transient. -/
def isRetryable : ApiOutcome → Bool
  | .apiErr s => s = 429 ∨ s = 500 ∨ s = 502 ∨ s = 503 ∨ s = 504 ∨ s = 529
  | _ => false

/-- `maxRetries` from the client. -/
def maxRetries : Nat := 4

/-- `baseDelay` (1s) in nanoseconds, the unit of Go `time.Duration`. -/
def baseDelayNs : Nat := 1000000000

/-- `maxDelay` (30s) in nanoseconds. -/
def maxDelayNs : Nat := 30 * baseDelayNs

/-- The exponential cap used by `retryDelay`: `baseDelay * (1 << attempt)`,
clamped at `maxDelay`. -/
def expCap (attempt : Nat) : Nat := min (baseDelayNs * 2 ^ attempt) maxDelayNs

/-- `retryDelay(attempt)`: full jitter, a sample of `rand.Int64N(exp)` which
lies in `[0, exp)`.  The randomness source is an oracle `rng`; reducing its
value mod the cap realises exactly the guaranteed range of `Int64N`. -/
def retryDelay (rng : Nat → Nat) (attempt : Nat) : Nat :=
  rng attempt % expCap attempt

/-- Observable trace of one `CompleteWithTools` call: how many provider
attempts ran, the sleeps between them, and whether a response was returned. -/
structure RetryTrace where
  attempts : Nat
  sleeps : List Nat
  success : Bool
deriving DecidableEq, Repr

/-- The retry `for attempt := range maxRetries` loop.  `remaining` counts the
attempts still allowed, so `remaining = 0` after a failure corresponds to the
Go guard `attempt == maxRetries-1`.  Context cancellation during the backoff
sleep (a real-time effect) is not modelled. -/
def completeLoop (responses : Nat → ApiOutcome) (rng : Nat → Nat) :
    Nat → Nat → RetryTrace
  | _, 0 => ⟨0, [], false⟩
  | attempt, remaining + 1 =>
    if responses attempt = .ok then ⟨1, [], true⟩
    else if isRetryable (responses attempt) = false ∨ remaining = 0 then ⟨1, [], false⟩
    else
      ⟨(completeLoop responses rng (attempt + 1) remaining).attempts + 1,
       retryDelay rng attempt :: (completeLoop responses rng (attempt + 1) remaining).sleeps,
       (completeLoop responses rng (attempt + 1) remaining).success⟩

/-- `CompleteWithTools`, reduced to its retry behaviour: the provider is an
oracle giving the outcome of each attempt. -/
def completeWithTools (responses : Nat → ApiOutcome) (rng : Nat → Nat) : RetryTrace :=
  completeLoop responses rng 0 maxRetries

/-! ## Reviewer worker (`internals/reviewer`, `Worker.HandlePR` /
`Worker.reviewLoop`) -/

structure Issue where
  number : Nat
  title : List Char
  body : List Char
  url : List Char
deriving DecidableEq, Repr

structure RComment where
  path : List Char
  line : Nat
  body : List Char
  side : List Char
deriving DecidableEq, Repr

structure Review where
  verdict : List Char
  summary : List Char
  comments : List RComment
deriving DecidableEq, Repr

structure PR where
  number : Nat
  title : List Char
  description : List Char
  url : List Char
  branch : List Char
  baseBranch : List Char
  diff : List Char
  issueURL : List Char
deriving DecidableEq, Repr

/-- The zero value `git.Issue{}` used when the original issue cannot be
fetched. -/
def emptyIssue : Issue := ⟨0, [], [], []⟩

/-- External collaborators of the reviewer worker, as oracles: the provider
factory, the tracker endpoints, the review agent, and the notifier. -/
structure ReviewerEnv where
  factory : Except (List Char) Unit
  getPR : Nat → Except (List Char) PR
  getIssue : Nat → Except (List Char) Issue
  agentReview : PR → Issue → Except (List Char) Review
  postReview : Nat → Review → Except (List Char) Unit
  addLabel : Nat → List Char → Except (List Char) Unit
  notify : Except (List Char) Unit

/-- `maxRevisionRounds` from the reviewer worker. -/
def maxRevisionRounds : Nat := 5

/-- The `originalIssue` computation at the top of `reviewLoop`: fetch the
linked issue when the PR names one with a positive number; fetch failures
are logged only, leaving the zero `git.Issue{}`. -/
def resolveOriginalIssue (env : ReviewerEnv) (issueURL : List Char) : Issue :=
  if issueURL ≠ [] then
    let issueNumber := parseIssueNumber issueURL
    if issueNumber > 0 then
      match env.getIssue issueNumber.toNat with
      | .ok i => i
      | .error _ => emptyIssue
    else emptyIssue
  else emptyIssue

/-- `Worker.reviewLoop`, returning how many `PostReview` calls were made
together with the function result.  Failures of `GetIssue`, of the
`agent:approved` labelling and of the notification are logged warnings; a
failing `agent:revision` labelling is fatal, exactly as in the source. -/
def reviewLoop (env : ReviewerEnv) (prNumber round : Nat) :
    Nat × Except (List Char) Unit :=
  if round ≥ maxRevisionRounds then
    (0, .error (str "exceeded " ++ showNat maxRevisionRounds
      ++ str " revision rounds for PR #" ++ showNat prNumber))
  else
    match env.getPR prNumber with
    | .error e => (0, .error (str "get PR: " ++ e))
    | .ok pr =>
      match env.agentReview pr (resolveOriginalIssue env pr.issueURL) with
      | .error e => (0, .error (str "agent review: " ++ e))
      | .ok review =>
        match env.postReview prNumber review with
        | .error e => (1, .error (str "post review: " ++ e))
        | .ok _ =>
          if review.verdict = str "approve" then
            (1, .ok ())
          else if review.verdict = str "request_changes" then
            match env.addLabel (resolveOriginalIssue env pr.issueURL).number
                (str "agent:revision") with
            | .error e => (1, .error (str "add revision label: " ++ e))
            | .ok _ => (1, .ok ())
          else
            (1, .ok ())

/-- `Worker.HandlePR`: build the provider, then run the loop with the
in-process revision counter starting at 0.  The loop never recurses (the
`request_changes` arm only labels the issue), so this is the only call. -/
def handlePR (env : ReviewerEnv) (prNumber : Nat) : Nat × Except (List Char) Unit :=
  match env.factory with
  | .error e => (0, .error (str "build provider: " ++ e))
  | .ok _ => reviewLoop env prNumber 0

/-! ## Planner agent (`internals/planner`: `session.go`, `tools.go`, the
tool-dispatching `Agent.Handle` / `Agent.runLoop`) -/

inductive Stage where
  | brainstorm
  | prd
  | criteria
  | issues
  | done
deriving DecidableEq, Repr

/-- `planner.Message`: a role, plain or serialised-block content, and the
tool-result blocks populated for the `tool_result` role only (each block is a
tool-use id with its result text). -/
structure PMessage where
  role : List Char
  content : List Char
  rawBlocks : List (List Char × List Char)
deriving DecidableEq, Repr

structure LinkedIssue where
  number : Nat
  title : List Char
  url : List Char
deriving DecidableEq, Repr

/-- `planner.Session`, minus the wall-clock timestamps (`CreatedAt` /
`UpdatedAt`), which no claim mentions. -/
structure Session where
  threadTS : List Char
  channelID : List Char
  stage : Stage
  messages : List PMessage
  prdDraft : List Char
  criteria : List (List Char)
  issues : List LinkedIssue
deriving DecidableEq, Repr

/-- `newSession`. -/
def newSession (threadTS channelID : List Char) : Session :=
  ⟨threadTS, channelID, .brainstorm, [], [], [], []⟩

/-- `SessionStore.AppendMessage` (the `Save` it performs only refreshes the
timestamp we do not model). -/
def appendMessage (sess : Session) (role content : List Char) : Session :=
  { sess with messages := sess.messages ++ [⟨role, content, []⟩] }

/-- A parsed tool invocation, standing for the JSON input of a `tool_use`
block after `json.Unmarshal` into the matching input struct. -/
inductive ToolReq where
  | createIssue (title description : List Char)
      (acceptanceCriteria labels : List (List Char))
  | finishPlanning (summary : List Char)
  | unknown (name : List Char)
deriving DecidableEq, Repr

/-- A model content block: text, or a tool use carrying its id and input. -/
inductive CBlock where
  | text (s : List Char)
  | toolUse (id : List Char) (req : ToolReq)
deriving DecidableEq, Repr

/-- `extractToolCalls`: the `tool_use` blocks, in order. -/
def extractToolCalls (blocks : List CBlock) : List (List Char × ToolReq) :=
  blocks.filterMap fun b =>
    match b with
    | .toolUse id req => some (id, req)
    | _ => none

/-- `extractText`: the nonempty `text` blocks joined with newlines. -/
def extractText (blocks : List CBlock) : List Char :=
  List.intercalate ['\n'] (blocks.filterMap fun b =>
    match b with
    | .text s => if s ≠ [] then some s else none
    | _ => none)

/-- Stands for `marshalBlocks` (`json.Marshal` of the response blocks); the
rendering below is a stand-in serialisation — it is stored verbatim in the
per-turn history and nothing ever parses it back within one turn. -/
def marshalBlocks (blocks : List CBlock) : List Char :=
  (blocks.map fun b =>
    match b with
    | .text s => str "text:" ++ s ++ [';']
    | .toolUse id _ => str "tool_use:" ++ id ++ [';']).flatten

structure CreatedIssue where
  number : Nat
  title : List Char
  url : List Char
deriving DecidableEq, Repr

/-- The issue-creation backend (`IssueCreator.CreateIssue`), as an oracle
from (title, body, labels) to a created issue or a provider error. -/
def IssueCreator : Type :=
  List Char → List Char → List (List Char) → Except (List Char) CreatedIssue

/-- `ExecuteTool`: dispatch on the tool name.  `create_issue` failures from
the provider are returned as tool-result text (soft), and a successful
creation appends to `sess.Issues`; `finish_planning` sets the stage to done;
an unknown tool is a hard error. -/
def executeTool (creator : IssueCreator) (sess : Session) (req : ToolReq) :
    Except (List Char) (Session × List Char) :=
  match req with
  | .createIssue title description ac labels =>
    let body := buildIssueBody description ac
    match creator title body labels with
    | .error e => .ok (sess, str "error creating issue: " ++ e)
    | .ok issue =>
      .ok ({ sess with issues := sess.issues ++ [⟨issue.number, issue.title, issue.url⟩] },
        str "Created issue #" ++ showNat issue.number ++ str ": "
          ++ issue.title ++ ['\n'] ++ issue.url)
  | .finishPlanning _ =>
    .ok ({ sess with stage := .done }, str "Planning session marked as complete.")
  | .unknown name => .error (str "unknown tool: " ++ name)

/-- The body of the `for _, tc := range toolCalls` loop: execute each tool in
order, threading the session and collecting one tool-result block per call. -/
def executeTools (creator : IssueCreator) (sess : Session) :
    List (List Char × ToolReq) →
    Except (List Char) (Session × List (List Char × List Char))
  | [] => .ok (sess, [])
  | (id, req) :: rest =>
    match executeTool creator sess req with
    | .error e => .error e
    | .ok (sess', content) =>
      match executeTools creator sess' rest with
      | .error e => .error e
      | .ok (sess'', results) => .ok (sess'', (id, content) :: results)

/-- The LLM, as an oracle from the session (which determines the system
prompt) and the per-turn message list to a response or an error. -/
def PlannerLLM : Type :=
  Session → List PMessage → Except (List Char) (List CBlock)

/-- `Agent.runLoop`: up to `maxIter = 10` completions over a local copy of
the history; tool-free responses end the turn, otherwise the assistant
blocks and one combined `tool_result` message are appended to the copy. -/
def runLoop (llm : PlannerLLM) (creator : IssueCreator) :
    Nat → Session → List PMessage → Except (List Char) (Session × List Char)
  | 0, _, _ => .error (str "tool loop exceeded 10 iterations")
  | fuel + 1, sess, msgs =>
    match llm sess msgs with
    | .error e => .error e
    | .ok blocks =>
      let toolCalls := extractToolCalls blocks
      if toolCalls.isEmpty then .ok (sess, extractText blocks)
      else
        match executeTools creator sess toolCalls with
        | .error e => .error e
        | .ok (sess', results) =>
          runLoop llm creator fuel sess'
            (msgs ++ [⟨str "assistant", marshalBlocks blocks, []⟩,
                      ⟨str "tool_result", [], results⟩])

/-- `maxIter` from `runLoop`. -/
def plannerMaxIter : Nat := 10

/-- `Agent.Handle`: append the user message to the session, run the loop on
a copy of the history, and on success append the final assistant text. -/
def plannerHandle (llm : PlannerLLM) (creator : IssueCreator)
    (sess : Session) (text : List Char) :
    Except (List Char) (Session × List Char) :=
  let sess0 := appendMessage sess (str "user") text
  match runLoop llm creator plannerMaxIter sess0 sess0.messages with
  | .error e => .error e
  | .ok (sess1, reply) => .ok (appendMessage sess1 (str "assistant") reply, reply)

/-! ## Webhook signature verification (`executor/webhook.go`,
`verifyHMAC` / `readAndVerify`)

Bodies, secrets and header values are byte strings here (`List Nat`, each
element < 256), since Go hashes raw bytes.  SHA-256 and HMAC are embedded
executably, following FIPS 180-4 exactly as `crypto/sha256` and
`crypto/hmac` implement them. -/

/-- Bytes of an ASCII string literal. -/
def strB (s : String) : List Nat := s.data.map Char.toNat

/-- `strings.HasPrefix` on byte strings. -/
def hasPreB (p s : List Nat) : Bool := p.isPrefixOf s

/-- `strings.TrimPrefix` on byte strings. -/
def trimPreB (s p : List Nat) : List Nat :=
  if hasPreB p s then s.drop p.length else s

/-- Truncation to a 32-bit word. -/
def w32 (n : Nat) : Nat := n % 4294967296

/-- 32-bit right rotation. -/
def rotr32 (n x : Nat) : Nat := w32 ((x >>> n) ||| (x <<< (32 - n)))

/-- The 64 SHA-256 round constants of FIPS 180-4, in decimal. -/
def shaK : List Nat :=
  [1116352408, 1899447441, 3049323471, 3921009573, 961987163,
   1508970993, 2453635748, 2870763221, 3624381080, 310598401,
   607225278, 1426881987, 1925078388, 2162078206, 2614888103,
   3248222580, 3835390401, 4022224774, 264347078, 604807628,
   770255983, 1249150122, 1555081692, 1996064986, 2554220882,
   2821834349, 2952996808, 3210313671, 3336571891, 3584528711,
   113926993, 338241895, 666307205, 773529912, 1294757372,
   1396182291, 1695183700, 1986661051, 2177026350, 2456956037,
   2730485921, 2820302411, 3259730800, 3345764771, 3516065817,
   3600352804, 4094571909, 275423344, 430227734, 506948616,
   659060556, 883997877, 958139571, 1322822218, 1537002063,
   1747873779, 1955562222, 2024104815, 2227730452, 2361852424,
   2428436474, 2756734187, 3204031479, 3329325298]

/-- The eight SHA-256 initial hash words of FIPS 180-4, in decimal. -/
def shaH0 : List Nat :=
  [1779033703, 3144134277, 1013904242, 2773480762,
   1359893119, 2600822924, 528734635, 1541459225]

/-- A natural number as 8 big-endian bytes. -/
def be64 (n : Nat) : List Nat :=
  [w8 (n >>> 56), w8 (n >>> 48), w8 (n >>> 40), w8 (n >>> 32),
   w8 (n >>> 24), w8 (n >>> 16), w8 (n >>> 8), w8 n]
where
  w8 (x : Nat) : Nat := x % 256

/-- A 32-bit word as 4 big-endian bytes. -/
def be32 (n : Nat) : List Nat :=
  [(n >>> 24) % 256, (n >>> 16) % 256, (n >>> 8) % 256, n % 256]

/-- SHA-256 padding: a `0x80` byte, zeros up to 56 mod 64, and the bit
length as 8 big-endian bytes. -/
def shaPad (msg : List Nat) : List Nat :=
  let l := msg.length
  msg ++ [128] ++ List.replicate ((119 - l % 64) % 64) 0 ++ be64 (8 * l)

/-- Split into 64-byte blocks (fuelled by the length, which suffices since
every step consumes at least one element). -/
def chunks64 (l : List Nat) : List (List Nat) := go l.length l
where
  go : Nat → List Nat → List (List Nat)
    | 0, _ => []
    | _, [] => []
    | fuel + 1, l => l.take 64 :: go fuel (l.drop 64)

/-- Group bytes into big-endian 32-bit words. -/
def words16 : List Nat → List Nat
  | a :: b :: c :: d :: rest =>
    ((a <<< 24) ||| (b <<< 16) ||| (c <<< 8) ||| d) :: words16 rest
  | _ => []

/-- One message-schedule extension step, appending word `w[i]` computed from
`w[i-16]`, `w[i-15]`, `w[i-7]` and `w[i-2]`. -/
def scheduleStep (w : List Nat) : List Nat :=
  let i := w.length
  let x15 := w.getD (i - 15) 0
  let x2 := w.getD (i - 2) 0
  let s0 := (rotr32 7 x15) ^^^ (rotr32 18 x15) ^^^ (x15 >>> 3)
  let s1 := (rotr32 17 x2) ^^^ (rotr32 19 x2) ^^^ (x2 >>> 10)
  w ++ [w32 (w.getD (i - 16) 0 + s0 + w.getD (i - 7) 0 + s1)]

/-- The full 64-word message schedule of one block. -/
def scheduleW (w : List Nat) : List Nat :=
  (List.range 48).foldl (fun acc _ => scheduleStep acc) w

/-- The eight working registers of the compression function. -/
structure Regs where
  a : Nat
  b : Nat
  c : Nat
  d : Nat
  e : Nat
  f : Nat
  g : Nat
  h : Nat
deriving DecidableEq, Repr

/-- One compression round with round constant `k` and schedule word `wi`. -/
def compressStep (r : Regs) (kw : Nat × Nat) : Regs :=
  let s1 := (rotr32 6 r.e) ^^^ (rotr32 11 r.e) ^^^ (rotr32 25 r.e)
  let ch := (r.e &&& r.f) ^^^ ((r.e ^^^ 4294967295) &&& r.g)
  let temp1 := w32 (r.h + s1 + ch + kw.1 + kw.2)
  let s0 := (rotr32 2 r.a) ^^^ (rotr32 13 r.a) ^^^ (rotr32 22 r.a)
  let maj := (r.a &&& r.b) ^^^ (r.a &&& r.c) ^^^ (r.b &&& r.c)
  let temp2 := w32 (s0 + maj)
  ⟨w32 (temp1 + temp2), r.a, r.b, r.c, w32 (r.d + temp1), r.e, r.f, r.g⟩

/-- Compress one 64-byte block into the running hash state. -/
def compressBlock (h : List Nat) (block : List Nat) : List Nat :=
  let w := scheduleW (words16 block)
  let r0 : Regs := ⟨h.getD 0 0, h.getD 1 0, h.getD 2 0, h.getD 3 0,
                    h.getD 4 0, h.getD 5 0, h.getD 6 0, h.getD 7 0⟩
  let r := (shaK.zip w).foldl compressStep r0
  [w32 (h.getD 0 0 + r.a), w32 (h.getD 1 0 + r.b), w32 (h.getD 2 0 + r.c),
   w32 (h.getD 3 0 + r.d), w32 (h.getD 4 0 + r.e), w32 (h.getD 5 0 + r.f),
   w32 (h.getD 6 0 + r.g), w32 (h.getD 7 0 + r.h)]

/-- SHA-256 of a byte string, as its 32 digest bytes. -/
def sha256 (msg : List Nat) : List Nat :=
  (((chunks64 (shaPad msg)).foldl compressBlock shaH0).map be32).flatten

/-- HMAC-SHA256 (`crypto/hmac` with `sha256.New`): hash over-long keys,
zero-pad to the 64-byte block size, then the nested ipad/opad hashes. -/
def hmacSha256 (key msg : List Nat) : List Nat :=
  let key := if key.length > 64 then sha256 key else key
  let key := key ++ List.replicate (64 - key.length) 0
  sha256 ((key.map (· ^^^ 92)) ++ sha256 ((key.map (· ^^^ 54)) ++ msg))

/-- `hex.EncodeToString`, as bytes of the lowercase hex rendering. -/
def hexBytesB (bs : List Nat) : List Nat :=
  (bs.map fun b => [hexDigitByte (b / 16), hexDigitByte (b % 16)]).flatten
where
  hexDigitByte (n : Nat) : Nat := if n < 10 then 48 + n else 87 + n

/-- `verifyHMAC(body, secret, sig)`: strip a `sha256=` prefix from the
header value, hex-encode the HMAC of the body, compare (`hmac.Equal` is a
length-then-bytes equality, in constant time). -/
def verifyHMAC (body secret sig : List Nat) : Bool :=
  trimPreB sig (strB "sha256=") = hexBytesB (hmacSha256 secret body)

/-- `readAndVerify` (executor webhook server): empty secret disables
verification; otherwise a signature mismatch is an error, which the HTTP
handlers turn into a 401 response. -/
def readAndVerify (body secret sig : List Nat) : Except (List Nat) (List Nat) :=
  if secret = [] then .ok body
  else if verifyHMAC body secret sig then .ok body
  else .error (strB "signature mismatch")

/-- Flip bit `i` (little-endian within each byte) of a byte string. -/
def flipBit (body : List Nat) (i : Nat) : List Nat :=
  body.set (i / 8) ((body.getD (i / 8) 0) ^^^ (1 <<< (i % 8)))

deriving instance DecidableEq for Except

/-! ## Shared lemmas about the splitting helpers -/

theorem splitOnChar_ne_nil (sep : Char) (s : List Char) : splitOnChar sep s ≠ [] := by
  induction s with
  | nil => simp [splitOnChar]
  | cons c rest ih =>
    simp only [splitOnChar]
    by_cases h : c = sep
    · simp [h]
    · simp only [if_neg h]
      cases hr : splitOnChar sep rest with
      | nil => simp
      | cons l ls => simp

theorem splitOnChar_append (sep : Char) (a b : List Char) :
    splitOnChar sep (a ++ sep :: b) = splitOnChar sep a ++ splitOnChar sep b := by
  induction a with
  | nil => simp [splitOnChar]
  | cons c cs ih =>
    by_cases h : c = sep
    · subst h
      simp [splitOnChar, ih]
    · simp only [List.cons_append, splitOnChar, if_neg h]
      cases hcs : splitOnChar sep cs with
      | nil => exact absurd hcs (splitOnChar_ne_nil sep cs)
      | cons l ls =>
        rw [List.append_eq, ih, hcs]
        simp

theorem splitOnChar_no_sep (sep : Char) (a : List Char) (h : sep ∉ a) :
    splitOnChar sep a = [a] := by
  induction a with
  | nil => simp [splitOnChar]
  | cons c cs ih =>
    simp only [List.mem_cons, not_or] at h
    have hc : c ≠ sep := fun hc => h.1 hc.symm
    simp [splitOnChar, hc, ih h.2]

theorem splitNl_append (a b : List Char) :
    splitNl (a ++ '\n' :: b) = splitNl a ++ splitNl b :=
  splitOnChar_append '\n' a b

theorem splitNl_no_nl (a : List Char) (h : '\n' ∉ a) : splitNl a = [a] :=
  splitOnChar_no_sep '\n' a h

/-! ## Claim C8 — repo-URL parsing round trips -/

/-- Claim C8: parsing `https://github.com/org/repo` and
`git@github.com:org/repo.git` both yield platform `github`, owner `org`,
repo `repo`, and parsing `https://gitlab.example.com/group/subgroup/repo.git`
yields platform `gitlab`, owner `group/subgroup`, repo `repo`. -/
theorem parseRepoURL_examples :
    (parseRepoURL (str "https://github.com/org/repo")).map
        (fun i => (i.platform, i.owner, i.repo))
      = .ok (Platform.github, str "org", str "repo")
    ∧ (parseRepoURL (str "git@github.com:org/repo.git")).map
        (fun i => (i.platform, i.owner, i.repo))
      = .ok (Platform.github, str "org", str "repo")
    ∧ (parseRepoURL (str "https://gitlab.example.com/group/subgroup/repo.git")).map
        (fun i => (i.platform, i.owner, i.repo))
      = .ok (Platform.gitlab, str "group/subgroup", str "repo") := by
  refine ⟨?_, ?_, ?_⟩ <;> rfl

/-! ## Claim C10 — empty clone token passes any URL through -/

/-- Claim C10: with an empty token, `injectToken` returns every URL —
HTTPS or not — unchanged and never errors; the non-HTTPS refusal fires only
when a nonempty token is supplied. -/
theorem injectToken_empty_token :
    (∀ url : List Char, injectToken url [] = .ok url)
    ∧ (∀ url token : List Char, token ≠ [] →
        hasPre (str "https://") url = false →
        injectToken url token
          = .error (str "token injection only supported for HTTPS URLs, got: " ++ url)) := by
  constructor
  · intro url
    simp [injectToken]
  · intro url token htok hurl
    simp [injectToken, htok, hurl]

/-- Witness for C10: empty-token passthrough on both an SSH-form URL and an
HTTPS URL, and the refusal of a non-HTTPS URL under a nonempty token. -/
theorem injectToken_empty_token_witness :
    injectToken (str "git@github.com:org/repo.git") [] = .ok (str "git@github.com:org/repo.git")
    ∧ injectToken (str "https://github.com/org/repo") [] = .ok (str "https://github.com/org/repo")
    ∧ injectToken (str "git@github.com:org/repo.git") (str "tok")
        = .error (str "token injection only supported for HTTPS URLs, got: "
            ++ str "git@github.com:org/repo.git") :=
  ⟨injectToken_empty_token.1 (str "git@github.com:org/repo.git"),
   injectToken_empty_token.1 (str "https://github.com/org/repo"),
   injectToken_empty_token.2 (str "git@github.com:org/repo.git") (str "tok")
     (by decide) (by decide)⟩

/-! ## Claim C3 — list-files truncation (code bug: count always 0) -/

/-- Claim C3 (code behaviour at the failing boundary): on any listing with
more than 200 lines, `ListFiles` returns the first 200 paths and one summary
line — but the summary always reads `... (0 more files)`, because the count
`len(lines)-maxLines` is computed after `lines` was already resliced to
`maxLines` elements.  The claim (and the spec) wants the number of omitted
files. -/
theorem listFilesRender_truncated (lines : List (List Char))
    (h : 200 < lines.length) :
    listFilesRender lines = lines.take 200 ++ [str "... (0 more files)"] := by
  have hlen : (lines.take 200).length = 200 := by
    simp [List.length_take]; omega
  have hshow : str "... (" ++ showNat 0 ++ str " more files)" = str "... (0 more files)" := by
    decide
  simp only [listFilesRender, if_pos (by omega : lines.length > 200), hlen,
    Nat.sub_self, hshow]

/-- Witness for C3: a directory listing of 201 paths keeps the first 200 and
reports `0 more files` even though one path was omitted. -/
theorem listFilesRender_truncated_witness :
    listFilesRender ((List.range 201).map (fun i => str "f" ++ showNat i))
      = ((List.range 201).map (fun i => str "f" ++ showNat i)).take 200
        ++ [str "... (0 more files)"]
    ∧ ((List.range 201).map (fun i => str "f" ++ showNat i)).length - 200 = 1 :=
  ⟨listFilesRender_truncated _ (by simp), by simp⟩

/-! ## Claim C2 — branch-name slug shape -/

/-- A character the claim allows in a slug: `[a-z0-9-]`. -/
def slugCharOK (c : Char) : Bool :=
  (97 ≤ c.toNat && c.toNat ≤ 122) || (48 ≤ c.toNat && c.toNat ≤ 57) || c = '-'

/-- Title characters under which the `[a-z0-9-]` slug guarantee holds: ASCII
letters and digits plus exactly the characters the replacer handles. -/
def titleCharBenign (c : Char) : Bool :=
  (97 ≤ c.toNat && c.toNat ≤ 122) || (65 ≤ c.toNat && c.toNat ≤ 90) ||
  (48 ≤ c.toNat && c.toNat ≤ 57) ||
  c = ' ' || c = '/' || c = '\\' || c = ':' || c = '.' || c = '-'

theorem toNat_ofNat_small (n : Nat) (h : n < 55296) : (Char.ofNat n).toNat = n := by
  have hv : n.isValidChar := Or.inl h
  rw [Char.ofNat, dif_pos hv]
  simp [Char.ofNatAux, Char.toNat, UInt32.ofNat', UInt32.toNat]

theorem slugReplace_lower (c : Char) (h1 : 97 ≤ c.toNat) (h2 : c.toNat ≤ 122) :
    slugReplace c = some c ∧ slugCharOK c = true := by
  have hsp : c ≠ ' ' := fun hc => by rw [hc] at h1; exact absurd h1 (by decide)
  have hsl : c ≠ '/' := fun hc => by rw [hc] at h1; exact absurd h1 (by decide)
  have hbs : c ≠ '\\' := fun hc => by rw [hc] at h1; exact absurd h1 (by decide)
  have hco : c ≠ ':' := fun hc => by rw [hc] at h1; exact absurd h1 (by decide)
  have hdo : c ≠ '.' := fun hc => by rw [hc] at h1; exact absurd h1 (by decide)
  refine ⟨?_, ?_⟩
  · simp [slugReplace, hsp, hsl, hbs, hco, hdo]
  · simp only [slugCharOK, Bool.or_eq_true, Bool.and_eq_true, decide_eq_true_eq]
    exact Or.inl (Or.inl ⟨h1, h2⟩)

theorem slugReplace_digit (c : Char) (h1 : 48 ≤ c.toNat) (h2 : c.toNat ≤ 57) :
    slugReplace c = some c ∧ slugCharOK c = true := by
  have hsp : c ≠ ' ' := fun hc => by rw [hc] at h1; exact absurd h1 (by decide)
  have hsl : c ≠ '/' := fun hc => by rw [hc] at h1; exact absurd h1 (by decide)
  have hbs : c ≠ '\\' := fun hc => by rw [hc] at h2; exact absurd h2 (by decide)
  have hco : c ≠ ':' := fun hc => by rw [hc] at h2; exact absurd h2 (by decide)
  have hdo : c ≠ '.' := fun hc => by rw [hc] at h1; exact absurd h1 (by decide)
  refine ⟨?_, ?_⟩
  · simp [slugReplace, hsp, hsl, hbs, hco, hdo]
  · simp only [slugCharOK, Bool.or_eq_true, Bool.and_eq_true, decide_eq_true_eq]
    exact Or.inl (Or.inr ⟨h1, h2⟩)

/-- A benign title character survives lowercasing and the replacer only as a
character from `[a-z0-9-]`. -/
theorem benign_slug_step (c : Char) (hb : titleCharBenign c = true)
    (d : Char) (hr : slugReplace (toLowerGo c) = some d) : slugCharOK d = true := by
  simp only [titleCharBenign, Bool.or_eq_true, Bool.and_eq_true, decide_eq_true_eq] at hb
  rcases hb with ((((((((⟨h1, h2⟩ | ⟨h1, h2⟩) | ⟨h1, h2⟩) | rfl) | rfl) | rfl) | rfl) | rfl) | rfl)
  · -- already lowercase
    rw [toLowerGo, if_neg (by omega)] at hr
    obtain ⟨he, hok⟩ := slugReplace_lower c h1 h2
    rw [he] at hr
    exact Option.some.inj hr ▸ hok
  · -- uppercase: lowered into [97,122]
    have hlo : (toLowerGo c).toNat = c.toNat + 32 := by
      rw [toLowerGo, if_pos ⟨h1, h2⟩]
      exact toNat_ofNat_small _ (by omega)
    obtain ⟨he, hok⟩ := slugReplace_lower (toLowerGo c) (by omega) (by omega)
    rw [he] at hr
    exact Option.some.inj hr ▸ hok
  · -- digit
    rw [toLowerGo, if_neg (by omega)] at hr
    obtain ⟨he, hok⟩ := slugReplace_digit c h1 h2
    rw [he] at hr
    exact Option.some.inj hr ▸ hok
  · rw [show slugReplace (toLowerGo ' ') = some '-' from rfl] at hr
    injection hr with h
    exact h ▸ (by decide)
  · rw [show slugReplace (toLowerGo '/') = some '-' from rfl] at hr
    injection hr with h
    exact h ▸ (by decide)
  · rw [show slugReplace (toLowerGo '\\') = some '-' from rfl] at hr
    injection hr with h
    exact h ▸ (by decide)
  · rw [show slugReplace (toLowerGo ':') = none from rfl] at hr
    exact Option.noConfusion hr
  · rw [show slugReplace (toLowerGo '.') = none from rfl] at hr
    exact Option.noConfusion hr
  · rw [show slugReplace (toLowerGo '-') = some '-' from rfl] at hr
    injection hr with h
    exact h ▸ (by decide)

theorem mem_trimChar (c x : Char) (s : List Char) (h : x ∈ trimChar c s) : x ∈ s := by
  simp only [trimChar, trimRightChar, trimLeftChar] at h
  rw [List.mem_reverse] at h
  have h2 := (List.dropWhile_sublist (l := (s.dropWhile (· = c)).reverse) (· = c)).subset h
  rw [List.mem_reverse] at h2
  exact (List.dropWhile_sublist (· = c)).subset h2

theorem length_trimChar_le (c : Char) (s : List Char) :
    (trimChar c s).length ≤ s.length := by
  simp only [trimChar, trimRightChar, trimLeftChar, List.length_reverse]
  calc ((s.dropWhile (· = c)).reverse.dropWhile (· = c)).length
      ≤ (s.dropWhile (· = c)).reverse.length :=
        (List.dropWhile_sublist (· = c)).length_le
    _ = (s.dropWhile (· = c)).length := List.length_reverse _
    _ ≤ s.length := (List.dropWhile_sublist (· = c)).length_le

theorem getLast?_trimChar (c : Char) (s : List Char) :
    (trimChar c s).getLast? ≠ some c := by
  simp only [trimChar, trimRightChar, trimLeftChar]
  rw [List.getLast?_reverse]
  have := List.head?_dropWhile_not (· = c) (s.dropWhile (· = c)).reverse
  revert this
  cases ((s.dropWhile (· = c)).reverse.dropWhile (· = c)).head? with
  | none => intro _; simp
  | some x =>
    intro hx
    simp only [decide_eq_false_iff_not] at hx
    simp [hx]

theorem head?_trimChar (c : Char) (s : List Char) :
    (trimChar c s).head? ≠ some c := by
  simp only [trimChar, trimRightChar, trimLeftChar]
  rw [List.head?_reverse]
  obtain ⟨t, ht⟩ := List.dropWhile_suffix (l := (s.dropWhile (· = c)).reverse) (· = c)
  cases hd : ((s.dropWhile (· = c)).reverse.dropWhile (· = c)).getLast? with
  | none => simp [hd]
  | some x =>
    have hu : (t ++ (s.dropWhile (· = c)).reverse.dropWhile (· = c)).getLast?
        = (s.dropWhile (· = c)).head? := by
      rw [ht, List.getLast?_reverse]
    rw [List.getLast?_append, hd] at hu
    simp only [Option.or] at hu
    have hx := List.head?_dropWhile_not (· = c) s
    rw [← hu] at hx
    simp only [decide_eq_false_iff_not] at hx
    simp [hx]

/-- Claim C2 (amended): the branch name is `agent/issue-<N>-<slug>`, the slug
has length at most 50 and no leading or trailing `-`; and the slug consists
only of `[a-z0-9-]` provided the title uses ASCII letters and digits plus the
characters the replacer handles (any other character — `_`, `!`, … — passes
through verbatim, see the counterexample). -/
theorem branchName_slug_shape (n : Nat) (title : List Char) :
    branchName n title = str "agent/issue-" ++ showNat n ++ ['-'] ++ branchSlug title
    ∧ (branchSlug title).length ≤ 50
    ∧ (branchSlug title).head? ≠ some '-'
    ∧ (branchSlug title).getLast? ≠ some '-'
    ∧ ((∀ c ∈ title, titleCharBenign c = true) →
        ∀ c ∈ branchSlug title, slugCharOK c = true) := by
  refine ⟨rfl, ?_, ?_, ?_, ?_⟩
  · -- length: the pre-trim slug has at most 50 characters
    have : (if ((title.map toLowerGo).filterMap slugReplace).length > 50
        then ((title.map toLowerGo).filterMap slugReplace).take 50
        else (title.map toLowerGo).filterMap slugReplace).length ≤ 50 := by
      split
      · simp
      · omega
    exact le_trans (length_trimChar_le _ _) this
  · exact head?_trimChar '-' _
  · exact getLast?_trimChar '-' _
  · intro hb c hc
    have hc' := mem_trimChar '-' c _ hc
    have hc'' : c ∈ (title.map toLowerGo).filterMap slugReplace := by
      revert hc'
      split
      · intro h; exact List.take_subset _ _ h
      · intro h; exact h
    obtain ⟨a, ha, hra⟩ := List.mem_filterMap.mp hc''
    obtain ⟨b, hb', rfl⟩ := List.mem_map.mp ha
    exact benign_slug_step b (hb b hb') c hra

/-- Witness for C2 at concrete titles. -/
theorem branchName_slug_shape_witness :
    (branchSlug (str "Add /healthz")).length ≤ 50
    ∧ (branchSlug (str "Add /healthz")).head? ≠ some '-'
    ∧ slugCharOK 'z' = true :=
  ⟨(branchName_slug_shape 7 (str "Add /healthz")).2.1,
   (branchName_slug_shape 7 (str "Add /healthz")).2.2.1,
   (branchName_slug_shape 0 (str "z")).2.2.2.2 (by decide) 'z' (by decide)⟩

/-- Counterexample for C2 as stated: the title `"_"` yields the branch name
`agent/issue-1-_`, whose slug contains `_`, which is not in `[a-z0-9-]`. -/
theorem branchName_underscore_counterexample :
    branchName 1 (str "_") = str "agent/issue-1-_" ∧ slugCharOK '_' = false := by
  decide

/-! ## Claim C6 — change-request body round trip -/

/-- The checklist-block lines: one `- [ ] <criterion>` line per criterion,
provided no criterion embeds a newline. -/
theorem splitNl_acBlock (ac : List (List Char)) (rest : List Char)
    (hac : ∀ c ∈ ac, '\n' ∉ c) :
    splitNl ((ac.map (fun c => str "- [ ] " ++ c ++ ['\n'])).flatten ++ rest)
      = ac.map (fun c => str "- [ ] " ++ c) ++ splitNl rest := by
  induction ac with
  | nil => simp
  | cons c cs ih =>
    have hc : '\n' ∉ str "- [ ] " ++ c := by
      intro hmem
      rcases List.mem_append.mp hmem with h | h
      · exact absurd h (by decide)
      · exact hac c (List.mem_cons_self c cs) h
    have hassoc : ((str "- [ ] " ++ c ++ ['\n'])
          ++ (cs.map (fun c => str "- [ ] " ++ c ++ ['\n'])).flatten) ++ rest
        = (str "- [ ] " ++ c)
          ++ '\n' :: ((cs.map (fun c => str "- [ ] " ++ c ++ ['\n'])).flatten ++ rest) := by
      simp [List.append_assoc]
    rw [List.map_cons, List.flatten_cons, hassoc, splitNl_append,
      splitNl_no_nl _ hc, ih (fun d hd => hac d (List.mem_cons_of_mem c hd))]
    simp

/-- The full line decomposition of `buildIssueBody`. -/
theorem buildIssueBody_lines (d : List Char) (ac : List (List Char))
    (hac : ∀ c ∈ ac, '\n' ∉ c) :
    splitNl (buildIssueBody d ac)
      = [str "## Description", []] ++ splitNl d
        ++ [[], str "## Acceptance Criteria"]
        ++ ac.map (fun c => str "- [ ] " ++ c)
        ++ [[], str "---", str "*Created by the Planner Agent*"] := by
  have hbody : buildIssueBody d ac
      = str "## Description" ++ '\n' :: ([] ++ '\n' :: (d
          ++ '\n' :: ([] ++ '\n' :: (str "## Acceptance Criteria"
          ++ '\n' :: ((ac.map (fun c => str "- [ ] " ++ c ++ ['\n'])).flatten
          ++ ([] ++ '\n' :: (str "---"
          ++ '\n' :: str "*Created by the Planner Agent*"))))))) := by
    simp [buildIssueBody, str]
  rw [hbody, splitNl_append, splitNl_append, splitNl_append, splitNl_append,
    splitNl_append,
    splitNl_no_nl (str "## Description") (by decide),
    splitNl_no_nl (str "## Acceptance Criteria") (by decide),
    splitNl_acBlock ac _ hac, splitNl_append, splitNl_append,
    splitNl_no_nl (str "---") (by decide),
    splitNl_no_nl (str "*Created by the Planner Agent*") (by decide)]
  simp [splitNl, splitOnChar]

/-- Claim C7 (amended): the issue body has exactly one `## Description` line,
exactly one `## Acceptance Criteria` line, its checklist lines are exactly
`- [ ] <criterion>` in input order, and it ends with the planner footer —
provided the description supplies none of those marker lines itself and no
criterion embeds a newline (interpolated text is not escaped, see the
counterexample). -/
theorem buildIssueBody_structure (d : List Char) (ac : List (List Char))
    (hd : ∀ l ∈ splitNl d, l ≠ str "## Description"
        ∧ l ≠ str "## Acceptance Criteria" ∧ hasPre (str "- [ ]") l = false)
    (hac : ∀ c ∈ ac, '\n' ∉ c) :
    (splitNl (buildIssueBody d ac)).count (str "## Description") = 1
    ∧ (splitNl (buildIssueBody d ac)).count (str "## Acceptance Criteria") = 1
    ∧ (splitNl (buildIssueBody d ac)).filter (fun l => hasPre (str "- [ ]") l)
        = ac.map (fun c => str "- [ ] " ++ c)
    ∧ ∃ front, splitNl (buildIssueBody d ac)
        = front ++ [[], str "---", str "*Created by the Planner Agent*"] := by
  rw [buildIssueBody_lines d ac hac]
  have hmapDesc : ∀ l ∈ ac.map (fun c => str "- [ ] " ++ c),
      l ≠ str "## Description" := by
    intro l hl
    obtain ⟨c, _, rfl⟩ := List.mem_map.mp hl
    intro hcon
    have h2 := congrArg List.head? hcon
    simp [str] at h2
  have hmapAC : ∀ l ∈ ac.map (fun c => str "- [ ] " ++ c),
      l ≠ str "## Acceptance Criteria" := by
    intro l hl
    obtain ⟨c, _, rfl⟩ := List.mem_map.mp hl
    intro hcon
    have h2 := congrArg List.head? hcon
    simp [str] at h2
  refine ⟨?_, ?_, ?_, ?_⟩
  · simp only [List.count_append]
    rw [(List.count_eq_zero (l := splitNl d)).mpr (fun hmem => (hd _ hmem).1 rfl),
      (List.count_eq_zero (l := ac.map (fun c => str "- [ ] " ++ c))).mpr
        (fun hmem => hmapDesc _ hmem rfl)]
    decide
  · simp only [List.count_append]
    rw [(List.count_eq_zero (l := splitNl d)).mpr (fun hmem => (hd _ hmem).2.1 rfl),
      (List.count_eq_zero (l := ac.map (fun c => str "- [ ] " ++ c))).mpr
        (fun hmem => hmapAC _ hmem rfl)]
    decide
  · simp only [List.filter_append]
    rw [(List.filter_eq_nil_iff (l := splitNl d)).mpr (fun l hl => by simp [(hd l hl).2.2]),
      (List.filter_eq_self (l := ac.map (fun c => str "- [ ] " ++ c))).mpr (fun l hl => by
        obtain ⟨c, _, rfl⟩ := List.mem_map.mp hl
        simp only [hasPre, List.isPrefixOf_iff_prefix]
        exact ⟨str " " ++ c, by simp [str]⟩)]
    rw [show List.filter (fun l => hasPre (str "- [ ]") l)
          [str "## Description", []] = [] from by decide,
        show List.filter (fun l => hasPre (str "- [ ]") l)
          [[], str "## Acceptance Criteria"] = [] from by decide,
        show List.filter (fun l => hasPre (str "- [ ]") l)
          [[], str "---", str "*Created by the Planner Agent*"] = [] from by decide]
    simp
  · exact ⟨[str "## Description", []] ++ splitNl d
      ++ [[], str "## Acceptance Criteria"] ++ ac.map (fun c => str "- [ ] " ++ c),
      by simp [List.append_assoc]⟩

/-- Witness for C7 at a concrete description and criteria list. -/
theorem buildIssueBody_structure_witness :
    (splitNl (buildIssueBody (str "do the thing") [str "a", str "b"])).count
        (str "## Description") = 1
    ∧ (splitNl (buildIssueBody (str "do the thing") [str "a", str "b"])).filter
        (fun l => hasPre (str "- [ ]") l)
      = [str "- [ ] a", str "- [ ] b"] :=
  ⟨(buildIssueBody_structure (str "do the thing") [str "a", str "b"]
      (by decide) (by decide)).1,
   by
    have h := (buildIssueBody_structure (str "do the thing") [str "a", str "b"]
      (by decide) (by decide)).2.2.1
    simpa using h⟩

/-- Counterexample for C7 as stated: a description that is itself the line
`## Description` produces a body with two `## Description` lines, not
exactly one. -/
theorem buildIssueBody_counterexample :
    (splitNl (buildIssueBody (str "## Description") [])).count (str "## Description")
      = 2 := by
  decide

/-! ## Claim C4 — LLM retry policy -/

theorem completeLoop_attempts_le (responses : Nat → ApiOutcome) (rng : Nat → Nat) :
    ∀ remaining attempt, (completeLoop responses rng attempt remaining).attempts ≤ remaining := by
  intro remaining
  induction remaining with
  | zero => intro attempt; simp [completeLoop]
  | succ rem ih =>
    intro attempt
    simp only [completeLoop]
    split
    · simp
    · split
      · simp
      · rename_i hcond
        rcases not_or.mp hcond with ⟨_, h0⟩
        have := ih (attempt + 1)
        simp only
        omega

theorem completeLoop_attempts_pos (responses : Nat → ApiOutcome) (rng : Nat → Nat) :
    ∀ remaining attempt, 0 < remaining →
      0 < (completeLoop responses rng attempt remaining).attempts := by
  intro remaining attempt hrem
  cases remaining with
  | zero => omega
  | succ rem =>
    simp only [completeLoop]
    split
    · simp
    · split
      · simp
      · simp

theorem completeLoop_retries_retryable (responses : Nat → ApiOutcome) (rng : Nat → Nat) :
    ∀ remaining attempt i,
      i + 1 < (completeLoop responses rng attempt remaining).attempts →
      isRetryable (responses (attempt + i)) = true := by
  intro remaining
  induction remaining with
  | zero => intro attempt i h; simp [completeLoop] at h
  | succ rem ih =>
    intro attempt i h
    simp only [completeLoop] at h
    revert h
    split
    · intro h; simp at h
    · split
      · intro h; simp at h
      · rename_i hcond
        intro h
        simp only at h
        rcases not_or.mp hcond with ⟨h1, _⟩
        simp only [Bool.not_eq_false] at h1
        cases i with
        | zero => simpa using h1
        | succ j =>
          have := ih (attempt + 1) j (by omega)
          rw [show attempt + (j + 1) = attempt + 1 + j from by omega]
          exact this

theorem completeLoop_sleeps (responses : Nat → ApiOutcome) (rng : Nat → Nat) :
    ∀ remaining attempt,
      (completeLoop responses rng attempt remaining).sleeps
        = (List.range ((completeLoop responses rng attempt remaining).attempts - 1)).map
            (fun k => retryDelay rng (attempt + k)) := by
  intro remaining
  induction remaining with
  | zero => intro attempt; simp [completeLoop]
  | succ rem ih =>
    intro attempt
    simp only [completeLoop]
    split
    · simp
    · split
      · simp
      · rename_i hcond
        rcases not_or.mp hcond with ⟨_, h0⟩
        simp only [Nat.add_sub_cancel]
        rw [ih (attempt + 1)]
        cases hatt : (completeLoop responses rng (attempt + 1) rem).attempts with
        | zero =>
          have := completeLoop_attempts_pos responses rng rem (attempt + 1)
            (Nat.pos_of_ne_zero h0)
          omega
        | succ m =>
          rw [Nat.add_sub_cancel, List.range_succ_eq_map]
          simp only [List.map_cons, List.map_map, Nat.add_zero]
          congr 1
          refine List.map_congr_left ?_
          intro a _
          simp only [Function.comp_apply]
          congr 1
          omega

/-- Claim C4: for every response sequence, the client makes at most 4
attempts; every retried attempt followed a retryable status
(429/500/502/503/504/529); a first response that is neither a success nor
retryable fails immediately — one attempt, no sleep; the backoffs are
exactly the jitter samples of attempts 0, 1, …, each of which lies below
`min(2^attempt seconds, 30 seconds)`; on the concrete trace `[429, 503, OK]`
the call succeeds on the third attempt after exactly two backoffs, and on
`[401, …]` it fails after exactly one attempt with no backoff. -/
theorem completeWithTools_retry_policy (responses : Nat → ApiOutcome) (rng : Nat → Nat) :
    (completeWithTools responses rng).attempts ≤ 4
    ∧ (∀ i, i + 1 < (completeWithTools responses rng).attempts →
        isRetryable (responses i) = true)
    ∧ (completeWithTools responses rng).sleeps
        = (List.range ((completeWithTools responses rng).attempts - 1)).map
            (retryDelay rng)
    ∧ (∀ a, retryDelay rng a < min (2 ^ a * 1000000000) (30 * 1000000000))
    ∧ (responses 0 ≠ .ok → isRetryable (responses 0) = false →
        completeWithTools responses rng = ⟨1, [], false⟩)
    ∧ completeWithTools
        (fun i => if i = 0 then .apiErr 429 else if i = 1 then .apiErr 503 else .ok) rng
        = ⟨3, [retryDelay rng 0, retryDelay rng 1], true⟩
    ∧ completeWithTools (fun _ => .apiErr 401) rng = ⟨1, [], false⟩ := by
  refine ⟨completeLoop_attempts_le responses rng maxRetries 0, ?_, ?_, ?_, ?_, ?_, ?_⟩
  · intro i h
    have := completeLoop_retries_retryable responses rng maxRetries 0 i h
    simpa using this
  · rw [completeWithTools, completeLoop_sleeps responses rng maxRetries 0]
    simp
  · intro a
    have hcap : 0 < expCap a := by
      simp only [expCap, baseDelayNs, maxDelayNs, lt_min_iff]
      refine ⟨?_, by omega⟩
      positivity
    have hlt : retryDelay rng a < expCap a := Nat.mod_lt _ hcap
    simp only [expCap, baseDelayNs, maxDelayNs] at hlt
    rw [Nat.mul_comm (2 ^ a) 1000000000]
    exact hlt
  · intro hne hnr
    simp [completeWithTools, maxRetries, completeLoop, hne, hnr]
  · simp [completeWithTools, maxRetries, completeLoop, isRetryable]
  · simp [completeWithTools, maxRetries, completeLoop, isRetryable]

/-- Witness for C4: the fail-immediately conjunct discharged at the
concrete `[401]` trace with a concrete rng, plus the attempt bound there. -/
theorem completeWithTools_retry_policy_witness :
    completeWithTools (fun _ => .apiErr 401) (fun _ => 0) = ⟨1, [], false⟩
    ∧ (completeWithTools (fun _ => .apiErr 401) (fun _ => 0)).attempts ≤ 4 :=
  ⟨(completeWithTools_retry_policy (fun _ => .apiErr 401) (fun _ => 0)).2.2.2.2.1
     (by decide) (by decide),
   (completeWithTools_retry_policy (fun _ => .apiErr 401) (fun _ => 0)).1⟩

/-! ## Claim C1 — reviewer revision-round cap -/

/-- Every run of the review loop posts at most one review: the
`request_changes` arm only labels the issue and returns, it never recurses. -/
theorem reviewLoop_posts_le_one (env : ReviewerEnv) (prNumber round : Nat) :
    (reviewLoop env prNumber round).1 ≤ 1 := by
  rw [reviewLoop]
  split
  · simp
  · split
    · simp
    · split
      · simp
      · split
        · simp
        · split
          · simp
          · split
            · split <;> simp
            · simp


/-- Claim C1: once the in-process revision counter reaches the cap of 5 the
event fails with the `exceeded … revision rounds` error before any review is
posted; each delivery posts at most one review; and a delivery whose
provider resolves runs the loop exactly once, with the counter at 0 — so the
counter never exceeds 5. -/
theorem reviewLoop_revision_cap (env : ReviewerEnv) (prNumber round : Nat)
    (h : maxRevisionRounds ≤ round) :
    reviewLoop env prNumber round
      = (0, .error (str "exceeded " ++ showNat maxRevisionRounds
          ++ str " revision rounds for PR #" ++ showNat prNumber))
    ∧ (∀ e : ReviewerEnv, ∀ p, (handlePR e p).1 ≤ 1)
    ∧ (∀ e : ReviewerEnv, ∀ p, e.factory = .ok () → handlePR e p = reviewLoop e p 0) := by
  refine ⟨?_, ?_, ?_⟩
  · rw [reviewLoop, if_pos h]
  · intro e p
    rw [handlePR]
    cases hf : e.factory with
    | error msg => simp
    | ok u => exact reviewLoop_posts_le_one e p 0
  · intro e p hf
    rw [handlePR, hf]

/-- A concrete reviewer environment for the witness. -/
def envW : ReviewerEnv where
  factory := .ok ()
  getPR := fun _ => .error (str "offline")
  getIssue := fun _ => .error (str "offline")
  agentReview := fun _ _ => .error (str "offline")
  postReview := fun _ _ => .ok ()
  addLabel := fun _ _ => .ok ()
  notify := .ok ()

/-- Witness for C1: at round 5 the loop fails with the cap error and posts
nothing, and the concrete delivery posts at most one review. -/
theorem reviewLoop_revision_cap_witness :
    reviewLoop envW 7 5
      = (0, .error (str "exceeded 5 revision rounds for PR #7"))
    ∧ (handlePR envW 7).1 ≤ 1 := by
  refine ⟨?_, ?_⟩
  · rw [(reviewLoop_revision_cap envW 7 5 (by decide)).1]
    decide
  · exact (reviewLoop_revision_cap envW 7 5 (by decide)).2.1 envW 7

/-! ## Claim C9 — planner turns append exactly the user and assistant
messages to the session -/

theorem executeTool_messages (creator : IssueCreator) (sess : Session)
    (req : ToolReq) (sess' : Session) (out : List Char)
    (h : executeTool creator sess req = .ok (sess', out)) :
    sess'.messages = sess.messages := by
  cases req with
  | createIssue title description ac labels =>
    rw [executeTool] at h
    revert h
    split
    · intro h
      injection h with h
      injection h with h1 _
      rw [← h1]
    · intro h
      injection h with h
      injection h with h1 _
      rw [← h1]
  | finishPlanning s =>
    rw [executeTool] at h
    injection h with h
    injection h with h1 _
    rw [← h1]
  | unknown name =>
    rw [executeTool] at h
    exact Except.noConfusion h

theorem executeTools_messages (creator : IssueCreator) :
    ∀ (calls : List (List Char × ToolReq)) (sess sess' : Session)
      (results : List (List Char × List Char)),
      executeTools creator sess calls = .ok (sess', results) →
      sess'.messages = sess.messages := by
  intro calls
  induction calls with
  | nil =>
    intro sess sess' results h
    rw [executeTools] at h
    injection h with h
    injection h with h1 _
    rw [← h1]
  | cons c rest ih =>
    intro sess sess' results h
    obtain ⟨cid, creq⟩ := c
    rw [executeTools] at h
    revert h
    cases hstep : executeTool creator sess creq with
    | error e => intro h; exact Except.noConfusion h
    | ok pair =>
      obtain ⟨s1, content⟩ := pair
      cases hrest : executeTools creator s1 rest with
      | error e =>
        intro h
        simp only [hrest] at h
        exact Except.noConfusion h
      | ok pair2 =>
        obtain ⟨s2, res2⟩ := pair2
        intro h
        simp only [hrest, Except.ok.injEq, Prod.mk.injEq] at h
        obtain ⟨h1, _⟩ := h
        subst h1
        exact (ih s1 _ res2 hrest).trans
          (executeTool_messages creator sess creq s1 content hstep)

theorem runLoop_preserves_messages (llm : PlannerLLM) (creator : IssueCreator) :
    ∀ (fuel : Nat) (sess : Session) (msgs : List PMessage)
      (sess' : Session) (reply : List Char),
      runLoop llm creator fuel sess msgs = .ok (sess', reply) →
      sess'.messages = sess.messages := by
  intro fuel
  induction fuel with
  | zero =>
    intro sess msgs sess' reply h
    rw [runLoop] at h
    exact Except.noConfusion h
  | succ f ih =>
    intro sess msgs sess' reply h
    rw [runLoop] at h
    revert h
    cases hllm : llm sess msgs with
    | error e => intro h; exact Except.noConfusion h
    | ok blocks =>
      simp only
      split
      · intro h
        injection h with h
        injection h with h1 _
        rw [← h1]
      · cases hex : executeTools creator sess (extractToolCalls blocks) with
        | error e => intro h; exact Except.noConfusion h
        | ok pair =>
          obtain ⟨s1, results⟩ := pair
          intro h
          calc sess'.messages = s1.messages := ih s1 _ sess' reply h
            _ = sess.messages :=
              executeTools_messages creator (extractToolCalls blocks) sess s1 results hex

/-- Claim C9: a successful planner turn appends exactly two messages to the
session — the incoming user text and the final assistant reply; the
intermediate assistant/tool-result messages of the tool loop live only in
the per-turn copy. -/
theorem plannerHandle_two_messages (llm : PlannerLLM) (creator : IssueCreator)
    (sess : Session) (text : List Char) (sess' : Session) (reply : List Char)
    (h : plannerHandle llm creator sess text = .ok (sess', reply)) :
    sess'.messages = sess.messages
      ++ [⟨str "user", text, []⟩, ⟨str "assistant", reply, []⟩] := by
  rw [plannerHandle] at h
  revert h
  cases hrun : runLoop llm creator plannerMaxIter
      (appendMessage sess (str "user") text)
      (appendMessage sess (str "user") text).messages with
  | error e => intro h; exact Except.noConfusion h
  | ok pair =>
    obtain ⟨s1, rep⟩ := pair
    intro h
    injection h with h
    injection h with h1 h2
    have hmid := runLoop_preserves_messages llm creator plannerMaxIter
      (appendMessage sess (str "user") text) _ s1 rep hrun
    rw [← h1]
    simp only [appendMessage] at hmid ⊢
    rw [hmid, h2, List.append_assoc]
    rfl

/-- The LLM oracle for the witness: replies with plain text at once. -/
def llmW : PlannerLLM := fun _ _ => .ok [CBlock.text (str "ok")]

/-- The issue-creation oracle for the witness. -/
def creatorW : IssueCreator := fun _ _ _ => .error (str "offline")

/-- The session the witness turn produces. -/
def sessW : Session :=
  ⟨str "t", str "c", .brainstorm,
   [⟨str "user", str "hello", []⟩, ⟨str "assistant", str "ok", []⟩], [], [], []⟩

/-- Witness for C9: one concrete turn on a fresh session stores exactly the
user message and the assistant reply. -/
theorem plannerHandle_two_messages_witness :
    sessW.messages = (newSession (str "t") (str "c")).messages
      ++ [⟨str "user", str "hello", []⟩, ⟨str "assistant", str "ok", []⟩] :=
  plannerHandle_two_messages llmW creatorW (newSession (str "t") (str "c"))
    (str "hello") sessW (str "ok") (by decide)

/-! ## Claim C5 — webhook HMAC verification -/

/-- The correct signature header for body `"h"` under secret `"s3cret"`:
`sha256=` followed by the hex HMAC-SHA256 digest. -/
def sigW : List Nat :=
  strB "sha256=7e95e4c53739c4790622e641b2753db004defd2e1060fc1d88ce1b7ec18d2d98"

set_option maxHeartbeats 6000000 in
theorem hmacFlipReject0 :
    readAndVerify (flipBit (strB "h") 0) (strB "s3cret") sigW
      = .error (strB "signature mismatch") := by decide

set_option maxHeartbeats 6000000 in
theorem hmacFlipReject1 :
    readAndVerify (flipBit (strB "h") 1) (strB "s3cret") sigW
      = .error (strB "signature mismatch") := by decide

set_option maxHeartbeats 6000000 in
theorem hmacFlipReject2 :
    readAndVerify (flipBit (strB "h") 2) (strB "s3cret") sigW
      = .error (strB "signature mismatch") := by decide

set_option maxHeartbeats 6000000 in
theorem hmacFlipReject3 :
    readAndVerify (flipBit (strB "h") 3) (strB "s3cret") sigW
      = .error (strB "signature mismatch") := by decide

set_option maxHeartbeats 6000000 in
theorem hmacFlipReject4 :
    readAndVerify (flipBit (strB "h") 4) (strB "s3cret") sigW
      = .error (strB "signature mismatch") := by decide

set_option maxHeartbeats 6000000 in
theorem hmacFlipReject5 :
    readAndVerify (flipBit (strB "h") 5) (strB "s3cret") sigW
      = .error (strB "signature mismatch") := by decide

set_option maxHeartbeats 6000000 in
theorem hmacFlipReject6 :
    readAndVerify (flipBit (strB "h") 6) (strB "s3cret") sigW
      = .error (strB "signature mismatch") := by decide

set_option maxHeartbeats 6000000 in
theorem hmacFlipReject7 :
    readAndVerify (flipBit (strB "h") 7) (strB "s3cret") sigW
      = .error (strB "signature mismatch") := by decide

set_option maxHeartbeats 6000000 in
/-- Claim C5: with a nonempty secret, verification accepts exactly when the
header value, after stripping a `sha256=` prefix, equals the hex-encoded
HMAC-SHA256 of the raw body under the secret (and the handler turns the
rejection into a 401); with an empty secret every body is accepted.  On the
concrete body `"h"` under secret `"s3cret"` the correct header is accepted
and flipping any of the body's 8 bits is rejected. -/
theorem verifyHMAC_spec (body secret sig : List Nat) (hsec : secret ≠ []) :
    (verifyHMAC body secret sig = true
      ↔ trimPreB sig (strB "sha256=") = hexBytesB (hmacSha256 secret body))
    ∧ (readAndVerify body secret sig = .ok body
      ↔ verifyHMAC body secret sig = true)
    ∧ (∀ b s : List Nat, readAndVerify b [] s = .ok b)
    ∧ readAndVerify (strB "h") (strB "s3cret") sigW = .ok (strB "h")
    ∧ (∀ i, i < 8 → readAndVerify (flipBit (strB "h") i) (strB "s3cret") sigW
        = .error (strB "signature mismatch")) := by
  refine ⟨?_, ?_, ?_, ?_, ?_⟩
  · rw [verifyHMAC]
    exact decide_eq_true_iff
  · rw [readAndVerify, if_neg hsec]
    constructor
    · intro h
      by_contra hv
      rw [if_neg (by simpa using hv)] at h
      exact Except.noConfusion h
    · intro h
      rw [if_pos h]
  · intro b s
    rw [readAndVerify, if_pos rfl]
  · decide
  · intro i h
    interval_cases i
    · exact hmacFlipReject0
    · exact hmacFlipReject1
    · exact hmacFlipReject2
    · exact hmacFlipReject3
    · exact hmacFlipReject4
    · exact hmacFlipReject5
    · exact hmacFlipReject6
    · exact hmacFlipReject7

/-- Witness for C5: the concrete acceptance, obtained through the theorem at
a nonempty secret. -/
theorem verifyHMAC_spec_witness :
    readAndVerify (strB "h") (strB "s3cret") sigW = .ok (strB "h") :=
  (verifyHMAC_spec (strB "h") (strB "s3cret") sigW (by decide)).2.2.2.1

end Droid
